import Mathlib

/-!
Verification of the `HDict` hashable-dictionary library (`src/hdict/dictionary.py`).

We shallowly embed the Python runtime values that the library manipulates as the
inductive type `PyVal`, and translate each method of `HDict` (and the two
module-level argument-shape predicates) into executable Lean functions over that
type.  Python's runtime type queries (`isinstance(x, typing.Mapping)`,
`isinstance(x, typing.Hashable)`, `isinstance(x, typing.Sequence)`) are modelled
as Boolean functions on the head constructor of a `PyVal`, exactly as CPython
resolves them for the types in the model:

  * `list` and `dict` are the unhashable types; every other modelled type (int,
    str, bool, None, tuple, HDict) has a type-level `__hash__`, so
    `isinstance(x, Hashable)` is true for it even when a concrete `hash(x)` call
    would fail (e.g. a tuple containing a list).  The value-level `hash()`
    builtin is modelled separately by `pyHash`, which returns `none` where
    CPython raises `TypeError: unhashable type`.
  * `str`, `list` and `tuple` are Sequences; a string of length `n` is a
    sequence of its `n` one-character strings.
  * `dict` and `HDict` are Mappings.

An `HDict` value carries its entry list (insertion ordered, like a CPython
dict, with pairwise-distinct keys in any dict actually constructed by the
library) and its `__factory` attribute.  A factory is a zero-argument callable;
the model represents it by the value it returns (`Option PyVal`; `none` means
the attribute is `None` or non-callable, which `__getitem__` treats identically
because of its `isinstance(self.__factory, typing.Callable)` guard).  Key
lookup inside a dict is modelled with structural equality on `PyVal`, which
coincides with Python `==`/`hash` based lookup on the hashable keys exercised by
the claims.
-/

inductive PyVal where
  | vint : Int → PyVal
  | vstr : String → PyVal
  | vbool : Bool → PyVal
  | vnone : PyVal
  | vlist : List PyVal → PyVal
  | vtuple : List PyVal → PyVal
  | vdict : List (PyVal × PyVal) → PyVal
  | vhdict : List (PyVal × PyVal) → Option PyVal → PyVal

abbrev Entries := List (PyVal × PyVal)

/-- Python errors raised by the library: `ValueError` (insertion checks and the
constructor's argument-shape error), `KeyError` (missing key in
`__getitem__`), `TypeError` (hashing an unhashable value, e.g. inside the
underlying `dict.__setitem__` or the `in` test, or `loads` applied to
non-object JSON). -/
inductive PyErr where
  | valueError : String → PyErr
  | keyError : PyVal → PyErr
  | typeError : String → PyErr

/-- Python `isinstance(x, typing.Mapping)`. -/
def isMapping : PyVal → Bool
  | .vdict _ => true
  | .vhdict _ _ => true
  | _ => false

/-- Python `isinstance(x, typing.Hashable)`: a type-level query, true exactly when the
type's `__hash__` slot is not `None`.  `list` and `dict` are the unhashable
types of the model; `HDict` defines `__hash__`, so it counts as hashable. -/
def isHashable : PyVal → Bool
  | .vlist _ => false
  | .vdict _ => false
  | _ => true

/-- Python `isinstance(x, typing.Sequence)`: strings, lists and tuples. -/
def isSequence : PyVal → Bool
  | .vstr _ => true
  | .vlist _ => true
  | .vtuple _ => true
  | _ => false

/-- Python `len(x)` for the sequence types of the model. -/
def seqLen : PyVal → Nat
  | .vstr s => s.length
  | .vlist xs => xs.length
  | .vtuple xs => xs.length
  | _ => 0

/-- Python `x[n]` for the sequence types of the model; indexing a string yields a
one-character string. -/
def seqNth : PyVal → Nat → PyVal
  | .vstr s, n => .vstr (String.singleton (s.data.getD n ' '))
  | .vlist xs, n => xs.getD n .vnone
  | .vtuple xs, n => xs.getD n .vnone
  | _, _ => .vnone

mutual

/-- Structural Boolean equality on `PyVal`, used to build a decidable equality
(deriving is unavailable for this nested inductive). -/
def pyBeq : PyVal → PyVal → Bool
  | .vint a, .vint b => a == b
  | .vstr a, .vstr b => a == b
  | .vbool a, .vbool b => a == b
  | .vnone, .vnone => true
  | .vlist xs, .vlist ys => pyBeqList xs ys
  | .vtuple xs, .vtuple ys => pyBeqList xs ys
  | .vdict es, .vdict fs => pyBeqEntries es fs
  | .vhdict es f, .vhdict fs g => pyBeqEntries es fs && pyBeqOpt f g
  | _, _ => false
termination_by structural a => a

def pyBeqList : List PyVal → List PyVal → Bool
  | [], [] => true
  | x :: xs, y :: ys => pyBeq x y && pyBeqList xs ys
  | _, _ => false
termination_by structural a => a

def pyBeqEntries : Entries → Entries → Bool
  | [], [] => true
  | (k1, v1) :: xs, (k2, v2) :: ys =>
    pyBeq k1 k2 && pyBeq v1 v2 && pyBeqEntries xs ys
  | _, _ => false
termination_by structural a => a

def pyBeqOpt : Option PyVal → Option PyVal → Bool
  | none, none => true
  | some a, some b => pyBeq a b
  | _, _ => false
termination_by structural a => a

end

mutual

theorem pyBeq_refl : (a : PyVal) → pyBeq a a = true
  | .vint a => by simp [pyBeq]
  | .vstr a => by simp [pyBeq]
  | .vbool a => by simp [pyBeq]
  | .vnone => by simp [pyBeq]
  | .vlist xs => by simp only [pyBeq]; exact pyBeqList_refl xs
  | .vtuple xs => by simp only [pyBeq]; exact pyBeqList_refl xs
  | .vdict es => by simp only [pyBeq]; exact pyBeqEntries_refl es
  | .vhdict es f => by
      simp only [pyBeq, Bool.and_eq_true]
      exact ⟨pyBeqEntries_refl es, pyBeqOpt_refl f⟩
termination_by structural a => a

theorem pyBeqList_refl : (l : List PyVal) → pyBeqList l l = true
  | [] => rfl
  | x :: xs => by
      simp only [pyBeqList, Bool.and_eq_true]
      exact ⟨pyBeq_refl x, pyBeqList_refl xs⟩
termination_by structural l => l

theorem pyBeqEntries_refl : (l : Entries) → pyBeqEntries l l = true
  | [] => rfl
  | (k, v) :: xs => by
      simp only [pyBeqEntries, Bool.and_eq_true]
      exact ⟨⟨pyBeq_refl k, pyBeq_refl v⟩, pyBeqEntries_refl xs⟩
termination_by structural l => l

theorem pyBeqOpt_refl : (o : Option PyVal) → pyBeqOpt o o = true
  | none => rfl
  | some a => pyBeq_refl a
termination_by structural o => o

end

mutual

theorem pyBeq_sound : (a b : PyVal) → pyBeq a b = true → a = b
  | .vint _, b => by
      cases b <;> simp [pyBeq]
  | .vstr _, b => by
      cases b <;> simp [pyBeq]
  | .vbool _, b => by
      cases b <;> simp [pyBeq]
  | .vnone, b => by
      cases b <;> simp [pyBeq]
  | .vlist xs, b => by
      cases b <;> simp only [pyBeq] <;> intro h
      case vlist ys => exact congrArg PyVal.vlist (pyBeqList_sound xs ys h)
      all_goals exact absurd h (by simp)
  | .vtuple xs, b => by
      cases b <;> simp only [pyBeq] <;> intro h
      case vtuple ys => exact congrArg PyVal.vtuple (pyBeqList_sound xs ys h)
      all_goals exact absurd h (by simp)
  | .vdict es, b => by
      cases b <;> simp only [pyBeq] <;> intro h
      case vdict fs => exact congrArg PyVal.vdict (pyBeqEntries_sound es fs h)
      all_goals exact absurd h (by simp)
  | .vhdict es f, b => by
      cases b <;> simp only [pyBeq, Bool.and_eq_true] <;> intro h
      case vhdict fs g =>
        rw [pyBeqEntries_sound es fs h.1, pyBeqOpt_sound f g h.2]
      all_goals exact absurd h (by simp)
termination_by structural a => a

theorem pyBeqList_sound : (l m : List PyVal) → pyBeqList l m = true → l = m
  | [], m => by cases m <;> simp [pyBeqList]
  | x :: xs, m => by
      cases m <;> simp only [pyBeqList, Bool.and_eq_true] <;> intro h
      case nil => exact absurd h (by simp)
      case cons y ys =>
        rw [pyBeq_sound x y h.1, pyBeqList_sound xs ys h.2]
termination_by structural l => l

theorem pyBeqEntries_sound : (l m : Entries) → pyBeqEntries l m = true → l = m
  | [], m => by cases m <;> simp [pyBeqEntries]
  | (k, v) :: xs, m => by
      cases m with
      | nil => simp [pyBeqEntries]
      | cons p ys =>
        obtain ⟨k2, v2⟩ := p
        simp only [pyBeqEntries, Bool.and_eq_true]
        intro h
        rw [pyBeq_sound k k2 h.1.1, pyBeq_sound v v2 h.1.2,
          pyBeqEntries_sound xs ys h.2]
termination_by structural l => l

theorem pyBeqOpt_sound :
    (o p : Option PyVal) → pyBeqOpt o p = true → o = p
  | none, p => by cases p <;> simp [pyBeqOpt]
  | some a, p => by
      cases p with
      | none => simp [pyBeqOpt]
      | some b => exact fun h => congrArg Option.some (pyBeq_sound a b h)
termination_by structural o => o

end

instance : DecidableEq PyVal := fun a b =>
  decidable_of_iff (pyBeq a b = true)
    ⟨pyBeq_sound a b, fun h => h ▸ pyBeq_refl a⟩

deriving instance DecidableEq for PyErr

instance {ε α : Type _} [DecidableEq ε] [DecidableEq α] :
    DecidableEq (Except ε α) := fun a b =>
  match a, b with
  | .ok x, .ok y => decidable_of_iff (x = y) (by simp)
  | .error x, .error y => decidable_of_iff (x = y) (by simp)
  | .ok _, .error _ => .isFalse (by simp)
  | .error _, .ok _ => .isFalse (by simp)

/-- Lookup in a CPython dict's entry list (binding of the key; the first one,
though dicts built by the library never hold duplicate keys). -/
def lookupEntry (k : PyVal) : Entries → Option PyVal
  | [] => none
  | (k2, v) :: rest => if k2 = k then some v else lookupEntry k rest

/-- CPython `dict.__setitem__` storage discipline: overwrite in place if the key is
present, append otherwise. -/
def dictSet (k v : PyVal) : Entries → Entries
  | [] => [(k, v)]
  | (k2, v2) :: rest =>
    if k2 = k then (k2, v) :: rest else (k2, v2) :: dictSet k v rest

/-- A model hash for strings (stand-in for CPython's string hash; only its
well-definedness matters for the claims). -/
def strHash (s : String) : Int :=
  s.data.foldl (fun a c => a * 131 + Int.ofNat c.toNat) 7

/-- Combine element hashes in an order-dependent way: model of tuple hashing;
`none` if any element is unhashable. -/
def listCombO (l : List (Option Int)) : Option Int :=
  if l.all Option.isSome then
    some (l.foldl (fun a o => a * 31 + o.getD 0) 17)
  else none

/-- Combine element hashes in an order-independent way: model of
`hash(frozenset(...))` over distinct elements; `none` if any element is
unhashable.  The claims only require this to be a pure function of the
underlying set. -/
def listSumO (l : List (Option Int)) : Option Int :=
  if l.all Option.isSome then
    some (l.foldl (fun a o => a + o.getD 0) 0)
  else none

mutual

/-- The `hash()` builtin: `none` where CPython raises `TypeError: unhashable`.
For an `HDict`, `HDict.__hash__` (dictionary.py line 152) returns
`hash(frozenset(self))`, a pure function of the key set: iterating a dict
yields its keys, and the factory and the values play no part. -/
def pyHash : PyVal → Option Int
  | .vint i => some i
  | .vstr s => some (strHash s)
  | .vbool b => some (if b then 1 else 0)
  | .vnone => some 0
  | .vlist _ => none
  | .vdict _ => none
  | .vtuple xs => listCombO (pyHashList xs)
  | .vhdict es _ => listSumO (pyHashKeys es)

def pyHashList : List PyVal → List (Option Int)
  | [] => []
  | x :: xs => pyHash x :: pyHashList xs

def pyHashKeys : Entries → List (Option Int)
  | [] => []
  | (k, _) :: rest => pyHash k :: pyHashKeys rest

end

/-- Model of `HDict.__hash__` (dictionary.py lines 152-153). -/
def hdictHash (es : Entries) (factory : Option PyVal) : Option Int :=
  pyHash (.vhdict es factory)

def keyNotHashableMessage : String :=
  "An item cannot be inserted into a HDict - the key is not hashable"

def valueNotHashableMessage : String :=
  "An item cannot be inserted into a HDict - the value is not hashable"

def oddArgumentsMessage : String :=
  "An even number of arguments must be passed if keys and values are to be passed into a HDict individually"

/-- The final `super().__setitem__(key, value)` of `HDict.__setitem__`:
CPython's `dict.__setitem__` hashes the key (raising `TypeError` if that
fails — possible for a tuple with unhashable contents, which passes the
`isinstance(key, Hashable)` check) and then stores the binding.  The value is
not hashed. -/
def store (es : Entries) (k v : PyVal) : Except PyErr Entries :=
  match pyHash k with
  | some _ => .ok (dictSet k v es)
  | none => .error (.typeError "unhashable type")

mutual

/-- Model of `HDict.__setitem__` (dictionary.py lines 111-140), key-coercion stage:
`if isinstance(key, Mapping) and not isinstance(key, Hashable): key =
self.__class__(values=key)`.  Constructing `HDict(values=key)` with no
positional arguments and no keyword arguments simply inserts every entry of
`key` through `__setitem__` into a fresh empty `HDict` with factory `None`
(see `hdictInit`); that loop is `insertAll [] kes` here.  Any error the nested
construction raises propagates. -/
def setItem (es : Entries) (k v : PyVal) : Except PyErr Entries :=
  match k with
  | .vdict kes =>
    match insertAll [] kes with
    | .ok kres => setItemVal es (.vhdict kres none) v
    | .error e => .error e
  | _ => setItemVal es k v
termination_by sizeOf k + sizeOf v + 1
decreasing_by all_goals simp_wf <;> simp_arith

/-- Model of `HDict.__setitem__`, value stage (after key coercion): coerce an
unhashable mapping value, else raise the value message for an unhashable
value, else raise the key message for an unhashable key, else store.  Note the
`elif` chain: when the value is coerced, the two hashability checks are
skipped entirely and control falls through to the store. -/
def setItemVal (es : Entries) (k v : PyVal) : Except PyErr Entries :=
  match v with
  | .vdict ves =>
    match insertAll [] ves with
    | .ok vres => store es k (.vhdict vres none)
    | .error e => .error e
  | _ =>
    if isHashable v then
      if isHashable k then store es k v
      else .error (.valueError keyNotHashableMessage)
    else .error (.valueError valueNotHashableMessage)
termination_by sizeOf v
decreasing_by all_goals simp_wf <;> simp_arith

/-- The loop `for key, value in src.items(): self[key] = value` — the insertion loop
used by `HDict.__init__` for its keyword entries, for `values`, and (through
`HDict(values=...)`) by the mapping coercion in `__setitem__`.  Stops at the
first error, leaving earlier insertions committed. -/
def insertAll (acc : Entries) : Entries → Except PyErr Entries
  | [] => .ok acc
  | (k, v) :: rest =>
    match setItem acc k v with
    | .ok acc2 => insertAll acc2 rest
    | .error e => .error e
termination_by src => sizeOf src
decreasing_by all_goals simp_wf <;> simp_arith

end

/-- Model of `_parameters_are_key_value_pairs(*args)` (dictionary.py lines 16-31):
non-empty, and every positional argument is a length-2 Sequence whose two
elements are each `isinstance(..., Hashable)`. -/
def parametersAreKeyValuePairs (args : List PyVal) : Bool :=
  !args.isEmpty &&
    args.all (fun a =>
      isSequence a && seqLen a == 2 &&
        isHashable (seqNth a 0) && isHashable (seqNth a 1))

/-- The even-index elements of a list (indices 0, 2, 4, ...). -/
def evens : List PyVal → List PyVal
  | [] => []
  | [x] => [x]
  | x :: _ :: rest => x :: evens rest

/-- Model of `_parameters_is_key_value_list(*args)` (dictionary.py lines 33-50):
non-empty, even count, and every element at an even index is hashable. -/
def parametersIsKeyValueList (args : List PyVal) : Bool :=
  !args.isEmpty && args.length % 2 == 0 && (evens args).all isHashable

/-- Consecutive pairs `(args[0], args[1]), (args[2], args[3]), ...` — the
key/value pairs read by the flat-list constructor form. -/
def flatPairs : List PyVal → Entries
  | k :: v :: rest => (k, v) :: flatPairs rest
  | _ => []

/-- The `.items()` of a Mapping (empty for non-mappings). -/
def entriesOfMapping : PyVal → Entries
  | .vdict es => es
  | .vhdict es _ => es
  | _ => []

/-- The positional-argument dispatch of `HDict.__init__` (dictionary.py lines
87-99): each recognized form merges its key/value pairs into the `kwargs`
dict (`kwargs[key] = value`, resp. `kwargs.update(args[0])`); any other
non-empty shape raises the ValueError.  Unpacking `key, value = arg` of a
length-2 sequence is `seqNth arg 0 / seqNth arg 1`. -/
def dispatchArgs (args : List PyVal) (kwargs : Entries) : Except PyErr Entries :=
  if parametersAreKeyValuePairs args then
    .ok (args.foldl (fun kw a => dictSet (seqNth a 0) (seqNth a 1) kw) kwargs)
  else if parametersIsKeyValueList args then
    .ok ((flatPairs args).foldl (fun kw p => dictSet p.1 p.2 kw) kwargs)
  else if args.length == 1 && isMapping (args.headD .vnone) then
    .ok ((entriesOfMapping (args.headD .vnone)).foldl
      (fun kw p => dictSet p.1 p.2 kw) kwargs)
  else if args.isEmpty then
    .ok kwargs
  else
    .error (.valueError oddArgumentsMessage)

/-- The state of an `HDict` instance: its dict entries and its `__factory`
attribute (modelled by the value a callable factory returns; `none` for
`None` or a non-callable, which behave identically — see `getItem`). -/
structure HDictS where
  entries : Entries
  factory : Option PyVal
deriving DecidableEq

/-- Model of `HDict.__init__` (dictionary.py lines 71-109): dispatch the positional
arguments into `kwargs`, store the factory, insert every `kwargs` entry via
`__setitem__`, then — if `values` is a Mapping — insert every `values` entry
via `__setitem__` (so `values` entries are merged last). -/
def hdictInit (args : List PyVal) (values : PyVal) (factory : Option PyVal)
    (kwargs : Entries) : Except PyErr HDictS :=
  match dispatchArgs args kwargs with
  | .error e => .error e
  | .ok kw =>
    match insertAll [] kw with
    | .error e => .error e
    | .ok es1 =>
      if isMapping values then
        match insertAll es1 (entriesOfMapping values) with
        | .error e => .error e
        | .ok es2 => .ok ⟨es2, factory⟩
      else
        .ok ⟨es1, factory⟩

/-- Model of `HDict.__getitem__` (dictionary.py lines 142-150).  Result: the returned
value or the raised error, the state of the instance after the call, and how
many times the factory was invoked (0 or 1).  The `__key not in self` test
hashes the key (`TypeError` for an unhashable key); on a miss with a callable
factory the factory result is inserted through `self[__key] = ...`
(`setItem`), then `super().__getitem__` reads the stored value back. -/
def getItem (d : HDictS) (k : PyVal) :
    Except PyErr PyVal × HDictS × Nat :=
  match pyHash k with
  | none => (.error (.typeError "unhashable type"), d, 0)
  | some _ =>
    match lookupEntry k d.entries with
    | some v => (.ok v, d, 0)
    | none =>
      match d.factory with
      | none => (.error (.keyError k), d, 0)
      | some fv =>
        match setItem d.entries k fv with
        | .error e => (.error e, d, 1)
        | .ok es2 =>
          match lookupEntry k es2 with
          | some v => (.ok v, ⟨es2, d.factory⟩, 1)
          | none => (.error (.keyError k), ⟨es2, d.factory⟩, 1)

/-- Model of `HDict.empty` (dictionary.py lines 155-160): `len(self) == 0`. -/
def hdictEmpty (d : HDictS) : Bool :=
  d.entries.length == 0

mutual

/-- The pure result of coercing a value through `HDict.__setitem__`: a plain
dict becomes `HDict(values=...)` with factory `None`; everything else is
stored as-is.  `setItem_good` below proves that `setItem` really stores
`coerceV` of its arguments whenever the insertion succeeds. -/
def coerceV : PyVal → PyVal
  | .vdict es => .vhdict (coerceEntries [] es) none
  | v => v
termination_by v => sizeOf v
decreasing_by all_goals simp_wf <;> simp_arith

/-- The entry list obtained by inserting `src` entry by entry (keys and values
coerced) on top of `acc`, with dict overwrite semantics. -/
def coerceEntries (acc : Entries) : Entries → Entries
  | [] => acc
  | (k, v) :: rest => coerceEntries (dictSet (coerceV k) (coerceV v) acc) rest
termination_by src => sizeOf src
decreasing_by all_goals simp_wf <;> simp_arith

end

mutual

/-- Python `==` as the spec's "same entries" relation, strengthened to be
order-sensitive on mappings (pointwise on the entry lists): it ignores the
factory attribute and the plain-dict/HDict distinction — exactly what
`dict.__eq__` ignores — and a `pyEquiv` result of `true` implies Python
equality.  Scalars and sequences compare componentwise. -/
def pyEquiv : PyVal → PyVal → Bool
  | .vint a, .vint b => a == b
  | .vstr a, .vstr b => a == b
  | .vbool a, .vbool b => a == b
  | .vnone, .vnone => true
  | .vlist xs, .vlist ys => pyEquivList xs ys
  | .vtuple xs, .vtuple ys => pyEquivList xs ys
  | .vdict es, .vdict fs => pyEquivEntries es fs
  | .vdict es, .vhdict fs _ => pyEquivEntries es fs
  | .vhdict es _, .vdict fs => pyEquivEntries es fs
  | .vhdict es _, .vhdict fs _ => pyEquivEntries es fs
  | _, _ => false
termination_by structural a => a

def pyEquivList : List PyVal → List PyVal → Bool
  | [], [] => true
  | x :: xs, y :: ys => pyEquiv x y && pyEquivList xs ys
  | _, _ => false
termination_by structural a => a

def pyEquivEntries : Entries → Entries → Bool
  | [], [] => true
  | (k1, v1) :: xs, (k2, v2) :: ys =>
    pyEquiv k1 k2 && pyEquiv v1 v2 && pyEquivEntries xs ys
  | _, _ => false
termination_by structural a => a

end

mutual

theorem pyEquiv_refl : (a : PyVal) → pyEquiv a a = true
  | .vint a => by simp [pyEquiv]
  | .vstr a => by simp [pyEquiv]
  | .vbool a => by simp [pyEquiv]
  | .vnone => by simp [pyEquiv]
  | .vlist xs => by simp only [pyEquiv]; exact pyEquivList_refl xs
  | .vtuple xs => by simp only [pyEquiv]; exact pyEquivList_refl xs
  | .vdict es => by simp only [pyEquiv]; exact pyEquivEntries_refl es
  | .vhdict es f => by simp only [pyEquiv]; exact pyEquivEntries_refl es
termination_by structural a => a

theorem pyEquivList_refl : (l : List PyVal) → pyEquivList l l = true
  | [] => rfl
  | x :: xs => by
      simp only [pyEquivList, Bool.and_eq_true]
      exact ⟨pyEquiv_refl x, pyEquivList_refl xs⟩
termination_by structural l => l

theorem pyEquivEntries_refl : (l : Entries) → pyEquivEntries l l = true
  | [] => rfl
  | (k, v) :: xs => by
      simp only [pyEquivEntries, Bool.and_eq_true]
      exact ⟨⟨pyEquiv_refl k, pyEquiv_refl v⟩, pyEquivEntries_refl xs⟩
termination_by structural l => l

end

mutual

/-- A value that `HDict.__setitem__` accepts in value position without
raising: a plain dict all of whose own entries are themselves insertable (it
will be coerced), or any type-level hashable value (stored as-is; the value
is never hashed by the store).  Lists — unhashable non-mappings — are
excluded. -/
def goodVal : PyVal → Bool
  | .vdict es => goodEntries es
  | v => isHashable v

/-- Entry lists of a well-formed source mapping: each key actually hashable
(`pyHash` defined — plain Python mappings cannot hold unhashable keys), keys
pairwise distinct (a dict has no duplicate keys), each value insertable. -/
def goodEntries : Entries → Bool
  | [] => true
  | (k, v) :: rest =>
    (pyHash k).isSome && (lookupEntry k rest).isNone &&
      goodVal v && goodEntries rest

end

/-- A value that `HDict.__setitem__` accepts in key position without raising:
either a hashable value, or a plain dict with insertable contents (it is
coerced to an `HDict`, whose hash is then defined). -/
def goodKey : PyVal → Bool
  | .vdict es => goodEntries es
  | k => (pyHash k).isSome

/-!
JSON model.  The library delegates text rendering and parsing to the external
`json` codec, which the spec puts out of scope; we model the codec's decoded
*structured values* as the type `Json` (numbers restricted to integers —
floats are outside the claims' scope).  A `Json.jobj` stands for a decoded
JSON object as `json.loads` produces it: string keys, source order, duplicates
already resolved.  `toJsonText` followed by `fromJsonText` is then modelled as
`hdictToJson` followed by `hdictLoads`: the codec parses the text it rendered
back to the same structured value, and formatting options (the default indent
of 4) do not affect the structured value.
-/

inductive Json where
  | jnull : Json
  | jbool : Bool → Json
  | jnum : Int → Json
  | jstr : String → Json
  | jarr : List Json → Json
  | jobj : List (String × Json) → Json

mutual

/-- What `json.loads` builds from a decoded value: objects become plain dicts
with string keys, arrays become lists. -/
def jsonToPy : Json → PyVal
  | .jnull => .vnone
  | .jbool b => .vbool b
  | .jnum i => .vint i
  | .jstr s => .vstr s
  | .jarr xs => .vlist (jsonToPyList xs)
  | .jobj fs => .vdict (jsonToPyFields fs)

def jsonToPyList : List Json → List PyVal
  | [] => []
  | x :: xs => jsonToPy x :: jsonToPyList xs

def jsonToPyFields : List (String × Json) → Entries
  | [] => []
  | (s, j) :: rest => (.vstr s, jsonToPy j) :: jsonToPyFields rest

end

/-- Model of `json.dumps` key stringification: strings stay, ints/bools/None are
rendered; other key types raise `TypeError` (`none` here). -/
def jsonKeyStr : PyVal → Option String
  | .vstr s => some s
  | .vint i => some (toString i)
  | .vbool b => some (if b then "true" else "false")
  | .vnone => some "null"
  | _ => none

mutual

/-- What `json.dumps` encodes a value to (`none` where it raises
`TypeError: not JSON serializable`): dicts and HDicts become objects, lists
and tuples become arrays. -/
def pyToJson : PyVal → Option Json
  | .vint i => some (.jnum i)
  | .vstr s => some (.jstr s)
  | .vbool b => some (.jbool b)
  | .vnone => some .jnull
  | .vlist xs => (pyToJsonList xs).map .jarr
  | .vtuple xs => (pyToJsonList xs).map .jarr
  | .vdict es => (pyToJsonFields es).map .jobj
  | .vhdict es _ => (pyToJsonFields es).map .jobj

def pyToJsonList : List PyVal → Option (List Json)
  | [] => some []
  | x :: xs =>
    match pyToJson x, pyToJsonList xs with
    | some j, some js => some (j :: js)
    | _, _ => none

def pyToJsonFields : Entries → Option (List (String × Json))
  | [] => some []
  | (k, v) :: rest =>
    match jsonKeyStr k, pyToJson v, pyToJsonFields rest with
    | some s, some j, some fs => some ((s, j) :: fs)
    | _, _, _ => none

end

/-- Model of `HDict.to_json` (dictionary.py lines 162-168), up to text formatting: the
`indent` keyword only affects the rendered text, not the structured value. -/
def hdictToJson (d : HDictS) : Option Json :=
  pyToJson (.vhdict d.entries d.factory)

def findField (s : String) : List (String × Json) → Option Json
  | [] => none
  | (t, j) :: rest => if t = s then some j else findField s rest

/-- Model of `HDict.loads` (dictionary.py lines 57-69): `json.loads` the text, then
`cls(**loaded_dictionary)`.  Keyword-splatting the decoded top-level object
into `__init__(self, *args, values=None, factory=None, **kwargs)` means:

  * a top-level key named "self" collides with the bound first parameter —
    CPython raises `TypeError: got multiple values for argument self` before
    the body runs;
  * a top-level key named "values" is captured by the `values` parameter and
    a top-level key named "factory" by the `factory` parameter instead of
    becoming entries; all other keys become keyword entries (the
    var-positional name "args" is not addressable by keyword, so an "args"
    key lands in `**kwargs` like any other).

A decoded JSON value is never callable, so a captured "factory" value behaves
exactly like `factory=None` under `__getitem__`'s `isinstance(..., Callable)`
guard, and is modelled as `none`.  A non-object top level makes `cls(**...)`
raise a `TypeError`. -/
def hdictLoads (j : Json) : Except PyErr HDictS :=
  match j with
  | .jobj fields =>
    if fields.any (fun p => p.1 == "self") then
      .error (.typeError "got multiple values for argument self")
    else
      hdictInit []
        (match findField "values" fields with
         | some jv => jsonToPy jv
         | none => .vnone)
        none
        (jsonToPyFields (fields.filter
          (fun p => !(p.1 == "values") && !(p.1 == "factory"))))
  | _ => .error (.typeError "keyword argument unpacking requires a mapping")

def isVstr : PyVal → Bool
  | .vstr _ => true
  | _ => false

mutual

/-- The value class of claim C9: JSON-representable scalars and (as stored in
an `HDict` after coercing insertion) nested hashable maps, recursively, with
string keys as JSON requires. -/
def roundOK : PyVal → Bool
  | .vint _ => true
  | .vstr _ => true
  | .vbool _ => true
  | .vnone => true
  | .vhdict es _ => roundEntriesOK es
  | _ => false

def roundEntriesOK : Entries → Bool
  | [] => true
  | (k, v) :: rest =>
    isVstr k && (lookupEntry k rest).isNone && roundOK v &&
      roundEntriesOK rest

end

/-! Basic lemmas about the dict primitives. -/

theorem lookupEntry_eq_none {k : PyVal} {es : Entries} :
    lookupEntry k es = none ↔ ∀ p ∈ es, p.1 ≠ k := by
  induction es with
  | nil => simp [lookupEntry]
  | cons p rest ih =>
    obtain ⟨k2, v⟩ := p
    by_cases h : k2 = k <;> simp [lookupEntry, h, ih]

theorem lookupEntry_dictSet_self (k v : PyVal) (es : Entries) :
    lookupEntry k (dictSet k v es) = some v := by
  induction es with
  | nil => simp [dictSet, lookupEntry]
  | cons p rest ih =>
    obtain ⟨k2, v2⟩ := p
    by_cases h : k2 = k <;> simp [dictSet, lookupEntry, h, ih]

theorem lookupEntry_dictSet_other {k2 k : PyVal} (v : PyVal) (es : Entries)
    (h : k2 ≠ k) :
    lookupEntry k (dictSet k2 v es) = lookupEntry k es := by
  induction es with
  | nil => simp [dictSet, lookupEntry, h]
  | cons p rest ih =>
    obtain ⟨k3, v3⟩ := p
    by_cases h3 : k3 = k2
    · subst h3
      simp [dictSet, lookupEntry, h]
    · by_cases h4 : k3 = k <;>
        simp [dictSet, lookupEntry, h3, h4, ih, Ne.symm h]

theorem dictSet_absent {k : PyVal} (v : PyVal) {es : Entries}
    (h : lookupEntry k es = none) :
    dictSet k v es = es ++ [(k, v)] := by
  induction es with
  | nil => simp [dictSet]
  | cons p rest ih =>
    obtain ⟨k2, v2⟩ := p
    rw [lookupEntry] at h
    by_cases h2 : k2 = k
    · simp [h2] at h
    · simp only [if_neg h2] at h
      simp [dictSet, h2, ih h]

theorem lookupEntry_append (k : PyVal) (l1 l2 : Entries) :
    lookupEntry k (l1 ++ l2) =
      match lookupEntry k l1 with
      | some v => some v
      | none => lookupEntry k l2 := by
  induction l1 with
  | nil => simp [lookupEntry]
  | cons p rest ih =>
    obtain ⟨k2, v2⟩ := p
    by_cases h : k2 = k <;> simp [lookupEntry, h, ih]

theorem dictSet_keys_cases {p : PyVal × PyVal} {k v : PyVal} {es : Entries}
    (h : p ∈ dictSet k v es) : p.1 = k ∨ p.1 ∈ es.map Prod.fst := by
  induction es with
  | nil => simp [dictSet] at h; simp [h]
  | cons q rest ih =>
    obtain ⟨k2, v2⟩ := q
    by_cases h2 : k2 = k
    · subst h2
      simp [dictSet] at h
      rcases h with h | h
      · left; simp [h]
      · right; simp; right; exact ⟨p.2, by simpa using h⟩
    · simp [dictSet, h2] at h
      rcases h with h | h
      · right; simp [h]
      · rcases ih h with h3 | h3
        · left; exact h3
        · right; simp at h3 ⊢; tauto

/-! Lemmas about the hashing model. -/

theorem pyHashKeys_map (es : Entries) :
    pyHashKeys es = es.map (fun p => pyHash p.1) := by
  induction es with
  | nil => rfl
  | cons p rest ih =>
    obtain ⟨k, v⟩ := p
    simp [pyHashKeys, ih]

theorem pyHash_some_isHashable {k : PyVal} (h : (pyHash k).isSome) :
    isHashable k = true := by
  cases k <;> simp_all [pyHash, isHashable]

theorem sum_foldl_getD (l : List (Option Int)) (init : Int) :
    l.foldl (fun a o => a + o.getD 0) init =
      init + (l.map (fun o => o.getD 0)).sum := by
  induction l generalizing init with
  | nil => simp
  | cons o rest ih => simp [ih]; ring

theorem listSumO_perm {l1 l2 : List (Option Int)} (h : l1.Perm l2) :
    listSumO l1 = listSumO l2 := by
  have hall : l1.all Option.isSome = l2.all Option.isSome := by
    rw [Bool.eq_iff_iff, List.all_eq_true, List.all_eq_true]
    exact ⟨fun H x hx => H x (h.mem_iff.mpr hx),
      fun H x hx => H x (h.mem_iff.mp hx)⟩
  rw [listSumO, listSumO, hall]
  by_cases hs : l2.all Option.isSome = true
  · simp only [hs, if_true, sum_foldl_getD, zero_add]
    exact congrArg _ ((h.map _).sum_eq)
  · simp [hs]

theorem listSumO_isSome {l : List (Option Int)} :
    (listSumO l).isSome ↔ l.all Option.isSome = true := by
  by_cases h : l.all Option.isSome = true <;> simp [listSumO, h]

theorem pyHash_vhdict_some {es : Entries} (f : Option PyVal)
    (h : ∀ p ∈ es, (pyHash p.1).isSome = true) :
    (pyHash (.vhdict es f)).isSome := by
  rw [pyHash, listSumO_isSome, pyHashKeys_map, List.all_eq_true]
  intro o ho
  rw [List.mem_map] at ho
  obtain ⟨p, hp, rfl⟩ := ho
  exact h p hp

/-- Claim C1: for every `HDict`, `__hash__` equals the model
frozenset-of-keys hash of its current keys, and any two instances whose key
sets are equal as sets — regardless of entry order, of the associated values,
and of either instance's factory — have equal `__hash__` results. -/
theorem hdictHash_key_set (es1 es2 : Entries) (f1 f2 : Option PyVal)
    (h1 : (es1.map Prod.fst).Nodup) (h2 : (es2.map Prod.fst).Nodup)
    (hset : ∀ k, k ∈ es1.map Prod.fst ↔ k ∈ es2.map Prod.fst) :
    hdictHash es1 f1 = listSumO ((es1.map Prod.fst).map pyHash) ∧
      hdictHash es1 f1 = hdictHash es2 f2 := by
  have hperm : (es1.map Prod.fst).Perm (es2.map Prod.fst) :=
    (List.perm_ext_iff_of_nodup h1 h2).mpr hset
  constructor
  · rw [hdictHash, pyHash, pyHashKeys_map, List.map_map]
    rfl
  · rw [hdictHash, hdictHash, pyHash, pyHash, pyHashKeys_map, pyHashKeys_map,
      ← Function.comp_def pyHash Prod.fst, ← List.map_map, ← List.map_map]
    exact listSumO_perm (hperm.map pyHash)

/-- Witness for C1 at concrete inputs: two maps with the same two keys in
opposite order, different values and different factories hash equal. -/
theorem hdictHash_key_set_witness :
    hdictHash [(.vstr "a", .vint 1), (.vstr "b", .vint 2)] none =
      hdictHash [(.vstr "b", .vint 9), (.vstr "a", .vint 0)]
        (some (.vint 7)) :=
  (hdictHash_key_set _ _ _ _ (by decide) (by decide)
    (fun k => by simp [List.map]; tauto)).2

/-! Lemmas about coercion and the good-argument predicates. -/

theorem coerceV_of_hash {k : PyVal} (h : (pyHash k).isSome = true) :
    coerceV k = k := by
  cases k <;> simp_all [coerceV, pyHash]

theorem goodKey_of_hash {k : PyVal} (h : (pyHash k).isSome = true) :
    goodKey k = true := by
  cases k <;> simp_all [goodKey, pyHash]

theorem goodEntries_cons {k v : PyVal} {rest : Entries} :
    goodEntries ((k, v) :: rest) = true ↔
      (pyHash k).isSome = true ∧ (lookupEntry k rest).isNone = true ∧
        goodVal v = true ∧ goodEntries rest = true := by
  simp [goodEntries, Bool.and_eq_true, and_assoc]

theorem mem_coerceEntries_hash :
    ∀ (src acc : Entries), goodEntries src = true →
      (∀ p ∈ acc, (pyHash p.1).isSome = true) →
      ∀ p ∈ coerceEntries acc src, (pyHash p.1).isSome = true := by
  intro src
  induction src with
  | nil =>
    intro acc _ hacc
    simpa [coerceEntries] using hacc
  | cons q rest ih =>
    obtain ⟨k, v⟩ := q
    intro acc hsrc hacc p hp
    rw [goodEntries_cons] at hsrc
    obtain ⟨hk, _, _, hrest⟩ := hsrc
    rw [coerceEntries] at hp
    refine ih _ hrest ?_ p hp
    intro q hq
    rcases dictSet_keys_cases hq with h1 | h1
    · rw [h1, coerceV_of_hash hk]
      exact hk
    · rw [List.mem_map] at h1
      obtain ⟨r, hr, hr2⟩ := h1
      rw [← hr2]
      exact hacc r hr

mutual

theorem insertAll_good : (src : Entries) → (acc : Entries) →
    goodEntries src = true → insertAll acc src = .ok (coerceEntries acc src)
  | [], acc => by
    intro _
    simp [insertAll, coerceEntries]
  | (k, v) :: rest, acc => by
    intro h
    rw [goodEntries_cons] at h
    obtain ⟨hk, _, hv, hrest⟩ := h
    have h1 := setItem_good acc k v (goodKey_of_hash hk) hv
    simp only [insertAll, h1]
    rw [coerceEntries]
    exact insertAll_good rest _ hrest
termination_by src _ => sizeOf src
decreasing_by all_goals simp_wf <;> simp_arith

theorem setItem_good : (es : Entries) → (k v : PyVal) →
    goodKey k = true → goodVal v = true →
    setItem es k v = .ok (dictSet (coerceV k) (coerceV v) es)
  | es, .vdict kes, v => by
    intro hk hv
    have hg : goodEntries kes = true := by simpa [goodKey] using hk
    have h1 := insertAll_good kes [] hg
    have h2 : (pyHash (PyVal.vhdict (coerceEntries [] kes) none)).isSome = true := by
      exact pyHash_vhdict_some none (mem_coerceEntries_hash kes [] hg (by simp))
    have h3 := setItemVal_good es (PyVal.vhdict (coerceEntries [] kes) none) v h2 hv
    simp only [setItem, h1, h3, coerceV]
  | es, .vint a, v => by
    intro hk hv
    have h3 := setItemVal_good es (.vint a) v (by simpa [goodKey] using hk) hv
    simp only [setItem, h3, coerceV]
  | es, .vstr a, v => by
    intro hk hv
    have h3 := setItemVal_good es (.vstr a) v (by simpa [goodKey] using hk) hv
    simp only [setItem, h3, coerceV]
  | es, .vbool a, v => by
    intro hk hv
    have h3 := setItemVal_good es (.vbool a) v (by simpa [goodKey] using hk) hv
    simp only [setItem, h3, coerceV]
  | es, .vnone, v => by
    intro hk hv
    have h3 := setItemVal_good es .vnone v (by simpa [goodKey] using hk) hv
    simp only [setItem, h3, coerceV]
  | es, .vlist xs, v => by
    intro hk hv
    exact absurd hk (by simp [goodKey, pyHash])
  | es, .vtuple xs, v => by
    intro hk hv
    have h3 := setItemVal_good es (.vtuple xs) v (by simpa [goodKey] using hk) hv
    simp only [setItem, h3, coerceV]
  | es, .vhdict hes hf, v => by
    intro hk hv
    have h3 := setItemVal_good es (.vhdict hes hf) v
      (by simpa [goodKey] using hk) hv
    simp only [setItem, h3, coerceV]
termination_by _ k v => sizeOf k + sizeOf v + 1
decreasing_by all_goals simp_wf <;> simp_arith

theorem setItemVal_good : (es : Entries) → (k v : PyVal) →
    (pyHash k).isSome = true → goodVal v = true →
    setItemVal es k v = .ok (dictSet k (coerceV v) es)
  | es, k, .vdict ves => by
    intro hk hv
    have hg : goodEntries ves = true := by simpa [goodVal] using hv
    have h1 := insertAll_good ves [] hg
    obtain ⟨n, hn⟩ := Option.isSome_iff_exists.mp hk
    simp only [setItemVal, h1, store, hn, coerceV]
  | es, k, .vint a => by
    intro hk hv
    obtain ⟨n, hn⟩ := Option.isSome_iff_exists.mp hk
    have hkh : isHashable k = true := pyHash_some_isHashable hk
    simp only [setItemVal, hkh, store, hn]
    simp [isHashable, coerceV]
  | es, k, .vstr a => by
    intro hk hv
    obtain ⟨n, hn⟩ := Option.isSome_iff_exists.mp hk
    have hkh : isHashable k = true := pyHash_some_isHashable hk
    simp only [setItemVal, hkh, store, hn]
    simp [isHashable, coerceV]
  | es, k, .vbool a => by
    intro hk hv
    obtain ⟨n, hn⟩ := Option.isSome_iff_exists.mp hk
    have hkh : isHashable k = true := pyHash_some_isHashable hk
    simp only [setItemVal, hkh, store, hn]
    simp [isHashable, coerceV]
  | es, k, .vnone => by
    intro hk hv
    obtain ⟨n, hn⟩ := Option.isSome_iff_exists.mp hk
    have hkh : isHashable k = true := pyHash_some_isHashable hk
    simp only [setItemVal, hkh, store, hn]
    simp [isHashable, coerceV]
  | es, k, .vlist xs => by
    intro hk hv
    exact absurd hv (by simp [goodVal, isHashable])
  | es, k, .vtuple xs => by
    intro hk hv
    obtain ⟨n, hn⟩ := Option.isSome_iff_exists.mp hk
    have hkh : isHashable k = true := pyHash_some_isHashable hk
    simp only [setItemVal, hkh, store, hn]
    simp [isHashable, coerceV]
  | es, k, .vhdict hes hf => by
    intro hk hv
    obtain ⟨n, hn⟩ := Option.isSome_iff_exists.mp hk
    have hkh : isHashable k = true := pyHash_some_isHashable hk
    simp only [setItemVal, hkh, store, hn]
    simp [isHashable, coerceV]
termination_by _ _ v => sizeOf v
decreasing_by all_goals simp_wf <;> simp_arith

end

theorem coerceEntries_append :
    ∀ (src acc : Entries), goodEntries src = true →
      (∀ p ∈ src, lookupEntry p.1 acc = none) →
      coerceEntries acc src = acc ++ src.map (fun p => (p.1, coerceV p.2)) := by
  intro src
  induction src with
  | nil =>
    intro acc _ _
    simp [coerceEntries]
  | cons q rest ih =>
    obtain ⟨k, v⟩ := q
    intro acc hg habs
    rw [goodEntries_cons] at hg
    obtain ⟨hk, hdist, hv, hrest⟩ := hg
    have hak : lookupEntry k acc = none := habs (k, v) (by simp)
    rw [coerceEntries, coerceV_of_hash hk, dictSet_absent (coerceV v) hak,
      ih (acc ++ [(k, coerceV v)]) hrest ?_]
    · simp
    · intro p hp
      rw [lookupEntry_append, habs p (by simp [hp])]
      have hne : p.1 ≠ k :=
        lookupEntry_eq_none.mp (by simpa using hdist) p hp
      simp [lookupEntry, Ne.symm hne]

mutual

theorem pyEquiv_coerceV : (v : PyVal) → goodVal v = true →
    pyEquiv v (coerceV v) = true
  | .vdict es => fun h => by
    have hg : goodEntries es = true := by simpa [goodVal] using h
    have hmap := coerceEntries_append es [] hg (by simp [lookupEntry])
    simp only [coerceV, hmap, List.nil_append]
    simp only [pyEquiv]
    exact pyEquiv_coerce_entries es hg
  | .vint a => fun _ => by simp only [coerceV]; exact pyEquiv_refl _
  | .vstr a => fun _ => by simp only [coerceV]; exact pyEquiv_refl _
  | .vbool a => fun _ => by simp only [coerceV]; exact pyEquiv_refl _
  | .vnone => fun _ => by simp only [coerceV]; exact pyEquiv_refl _
  | .vlist xs => fun _ => by simp only [coerceV]; exact pyEquiv_refl _
  | .vtuple xs => fun _ => by simp only [coerceV]; exact pyEquiv_refl _
  | .vhdict es f => fun _ => by simp only [coerceV]; exact pyEquiv_refl _
termination_by v => sizeOf v
decreasing_by all_goals simp_wf <;> simp_arith

theorem pyEquiv_coerce_entries : (es : Entries) → goodEntries es = true →
    pyEquivEntries es (es.map (fun p => (p.1, coerceV p.2))) = true
  | [] => fun _ => rfl
  | (k, v) :: rest => fun h => by
    rw [goodEntries_cons] at h
    obtain ⟨hk, _, hv, hrest⟩ := h
    simp only [List.map, pyEquivEntries, Bool.and_eq_true]
    exact ⟨⟨pyEquiv_refl k, pyEquiv_coerceV v hv⟩,
      pyEquiv_coerce_entries rest hrest⟩
termination_by es => sizeOf es
decreasing_by all_goals simp_wf <;> simp_arith

end

theorem goodKey_equiv {k : PyVal} (hk : goodKey k = true) :
    pyEquiv k (coerceV k) = true := by
  cases k with
  | vdict es => exact pyEquiv_coerceV _ (by simpa [goodKey, goodVal] using hk)
  | vint a => simp only [coerceV]; exact pyEquiv_refl _
  | vstr a => simp only [coerceV]; exact pyEquiv_refl _
  | vbool a => simp only [coerceV]; exact pyEquiv_refl _
  | vnone => simp only [coerceV]; exact pyEquiv_refl _
  | vlist xs => simp only [coerceV]; exact pyEquiv_refl _
  | vtuple xs => simp only [coerceV]; exact pyEquiv_refl _
  | vhdict es f => simp only [coerceV]; exact pyEquiv_refl _

/-- Claim C2: an insertion `self[key] = value` stores exactly the coerced key
and value (`coerceV`): an unhashable mapping (a plain dict) supplied in
either position is replaced by a newly constructed `HDict` — factory `None` —
holding the same entries (`pyEquiv`, Python `==`, which is what "holding the
same entries" means once nested entries are themselves recursively coerced);
anything already hashable is stored as-is, unconverted.  The hypotheses say
the call succeeds: the key is hashable or a well-formed plain dict, and the
value is type-hashable or a well-formed plain dict. -/
theorem setItem_stores_coerced (es : Entries) (k v : PyVal)
    (hk : goodKey k = true) (hv : goodVal v = true) :
    setItem es k v = .ok (dictSet (coerceV k) (coerceV v) es) ∧
    pyEquiv k (coerceV k) = true ∧
    pyEquiv v (coerceV v) = true ∧
    (isHashable k = true → coerceV k = k) ∧
    (isHashable v = true → coerceV v = v) ∧
    (isHashable k = false → ∃ ces, coerceV k = .vhdict ces none) ∧
    (isHashable v = false → ∃ ces, coerceV v = .vhdict ces none) := by
  refine ⟨setItem_good es k v hk hv, goodKey_equiv hk, pyEquiv_coerceV v hv,
    ?_, ?_, ?_, ?_⟩
  · intro h; cases k <;> simp_all [coerceV, isHashable]
  · intro h; cases v <;> simp_all [coerceV, isHashable]
  · intro h
    cases k with
    | vdict kes => exact ⟨coerceEntries [] kes, by simp [coerceV]⟩
    | vlist xs => simp [goodKey, pyHash] at hk
    | vint a => simp [isHashable] at h
    | vstr a => simp [isHashable] at h
    | vbool a => simp [isHashable] at h
    | vnone => simp [isHashable] at h
    | vtuple xs => simp [isHashable] at h
    | vhdict hes hf => simp [isHashable] at h
  · intro h
    cases v with
    | vdict ves => exact ⟨coerceEntries [] ves, by simp [coerceV]⟩
    | vlist xs => simp [goodVal, isHashable] at hv
    | vint a => simp [isHashable] at h
    | vstr a => simp [isHashable] at h
    | vbool a => simp [isHashable] at h
    | vnone => simp [isHashable] at h
    | vtuple xs => simp [isHashable] at h
    | vhdict hes hf => simp [isHashable] at h

/-- Witness for C2 at a concrete input: inserting the plain dict
`{"x": 1}` under key `"k"` stores a nested `HDict` with the same entries. -/
theorem setItem_stores_coerced_witness :
    setItem [] (.vstr "k") (.vdict [(.vstr "x", .vint 1)]) =
      .ok [(.vstr "k", .vhdict [(.vstr "x", .vint 1)] none)] ∧
    pyEquiv (.vdict [(.vstr "x", .vint 1)])
      (.vhdict [(.vstr "x", .vint 1)] none) = true := by
  have h := setItem_stores_coerced [] (.vstr "k")
    (.vdict [(.vstr "x", .vint 1)]) (by decide) (by decide)
  have hc : coerceV (.vdict [(.vstr "x", .vint 1)]) =
      .vhdict [(.vstr "x", .vint 1)] none := by
    simp [coerceV, coerceEntries, dictSet]
  constructor
  · rw [h.1, hc]
    simp [coerceV, dictSet]
  · rw [← hc]
    exact h.2.2.1

/-! Shape lemmas about insertion results and errors. -/

theorem store_ok {es : Entries} {k v : PyVal} {es2 : Entries}
    (h : store es k v = .ok es2) : es2 = dictSet k v es := by
  rw [store] at h
  cases hh : pyHash k with
  | none => rw [hh] at h; simp at h
  | some n => rw [hh] at h; simpa using h.symm

theorem store_err {es : Entries} {k v : PyVal} {e : PyErr}
    (h : store es k v = .error e) : e = .typeError "unhashable type" := by
  rw [store] at h
  cases hh : pyHash k with
  | none => rw [hh] at h; simpa using h.symm
  | some n => rw [hh] at h; simp at h

theorem setItemVal_ok_shape {es : Entries} {k v : PyVal} {es2 : Entries}
    (h : setItemVal es k v = .ok es2) : ∃ w, es2 = dictSet k w es := by
  cases v <;> simp only [setItemVal] at h
  case vdict ves =>
    cases hi : insertAll [] ves with
    | ok vres => rw [hi] at h; exact ⟨_, store_ok h⟩
    | error e => rw [hi] at h; simp at h
  all_goals
    split_ifs at h <;> first
      | exact ⟨_, store_ok h⟩
      | simp at h

theorem setItem_ok_shape {es : Entries} {k v : PyVal} {es2 : Entries}
    (hk : (pyHash k).isSome = true)
    (h : setItem es k v = .ok es2) : ∃ w, es2 = dictSet k w es := by
  cases k <;> simp only [setItem] at h <;>
    first
      | exact setItemVal_ok_shape h
      | simp [pyHash] at hk

mutual

theorem setItem_err : {es : Entries} → {k v : PyVal} → {e : PyErr} →
    setItem es k v = .error e →
    (∃ s, e = .valueError s) ∨ (∃ s, e = .typeError s)
  | es, .vdict kes, v, e => fun h => by
    simp only [setItem] at h
    cases hi : insertAll [] kes with
    | ok kres => rw [hi] at h; exact setItemVal_err h
    | error e2 =>
      rw [hi] at h
      simp only [Except.error.injEq] at h
      exact h ▸ insertAll_err hi
  | es, .vint a, v, e => fun h => setItemVal_err (by simpa [setItem] using h)
  | es, .vstr a, v, e => fun h => setItemVal_err (by simpa [setItem] using h)
  | es, .vbool a, v, e => fun h => setItemVal_err (by simpa [setItem] using h)
  | es, .vnone, v, e => fun h => setItemVal_err (by simpa [setItem] using h)
  | es, .vlist xs, v, e => fun h => setItemVal_err (by simpa [setItem] using h)
  | es, .vtuple xs, v, e => fun h => setItemVal_err (by simpa [setItem] using h)
  | es, .vhdict hes hf, v, e => fun h =>
    setItemVal_err (by simpa [setItem] using h)
termination_by es k v => sizeOf k + sizeOf v + 1
decreasing_by all_goals simp_wf <;> simp_arith

theorem setItemVal_err : {es : Entries} → {k v : PyVal} → {e : PyErr} →
    setItemVal es k v = .error e →
    (∃ s, e = .valueError s) ∨ (∃ s, e = .typeError s)
  | es, k, .vdict ves, e => fun h => by
    simp only [setItemVal] at h
    cases hi : insertAll [] ves with
    | ok vres =>
      rw [hi] at h
      exact .inr ⟨_, store_err h⟩
    | error e2 =>
      rw [hi] at h
      simp only [Except.error.injEq] at h
      exact h ▸ insertAll_err hi
  | es, k, .vint a, e => fun h => by
    simp only [setItemVal] at h
    split_ifs at h <;>
      first
        | exact .inr ⟨_, store_err h⟩
        | exact .inl ⟨_, by simpa using h.symm⟩
  | es, k, .vstr a, e => fun h => by
    simp only [setItemVal] at h
    split_ifs at h <;>
      first
        | exact .inr ⟨_, store_err h⟩
        | exact .inl ⟨_, by simpa using h.symm⟩
  | es, k, .vbool a, e => fun h => by
    simp only [setItemVal] at h
    split_ifs at h <;>
      first
        | exact .inr ⟨_, store_err h⟩
        | exact .inl ⟨_, by simpa using h.symm⟩
  | es, k, .vnone, e => fun h => by
    simp only [setItemVal] at h
    split_ifs at h <;>
      first
        | exact .inr ⟨_, store_err h⟩
        | exact .inl ⟨_, by simpa using h.symm⟩
  | es, k, .vlist xs, e => fun h => by
    simp only [setItemVal] at h
    split_ifs at h <;>
      first
        | exact .inr ⟨_, store_err h⟩
        | exact .inl ⟨_, by simpa using h.symm⟩
  | es, k, .vtuple xs, e => fun h => by
    simp only [setItemVal] at h
    split_ifs at h <;>
      first
        | exact .inr ⟨_, store_err h⟩
        | exact .inl ⟨_, by simpa using h.symm⟩
  | es, k, .vhdict hes hf, e => fun h => by
    simp only [setItemVal] at h
    split_ifs at h <;>
      first
        | exact .inr ⟨_, store_err h⟩
        | exact .inl ⟨_, by simpa using h.symm⟩
termination_by es k v => sizeOf v
decreasing_by all_goals simp_wf <;> simp_arith

theorem insertAll_err : {src acc : Entries} → {e : PyErr} →
    insertAll acc src = .error e →
    (∃ s, e = .valueError s) ∨ (∃ s, e = .typeError s)
  | [], acc, e => fun h => by simp [insertAll] at h
  | (k, v) :: rest, acc, e => fun h => by
    simp only [insertAll] at h
    cases hs : setItem acc k v with
    | ok acc2 => rw [hs] at h; exact insertAll_err h
    | error e2 =>
      rw [hs] at h
      simp only [Except.error.injEq] at h
      exact h ▸ setItem_err hs
termination_by src acc => sizeOf src
decreasing_by all_goals simp_wf <;> simp_arith

end

/-- Claim C4: with a factory configured and `key` absent, `__getitem__`
invokes the factory once (invocation count 1), inserts its result through the
coercing `__setitem__` (the stored and returned value is `coerceV` of the
factory result), appends the key — the size grows by exactly one — and a
second lookup of the same key returns the stored value with no further
factory invocation (count 0) and no change of state. -/
theorem getItem_factory (es : Entries) (k fv : PyVal)
    (hk : (pyHash k).isSome = true)
    (habs : lookupEntry k es = none)
    (hfv : goodVal fv = true) :
    getItem ⟨es, some fv⟩ k =
      (.ok (coerceV fv), ⟨es ++ [(k, coerceV fv)], some fv⟩, 1) ∧
    getItem ⟨es ++ [(k, coerceV fv)], some fv⟩ k =
      (.ok (coerceV fv), ⟨es ++ [(k, coerceV fv)], some fv⟩, 0) ∧
    (es ++ [(k, coerceV fv)]).length = es.length + 1 := by
  obtain ⟨n, hn⟩ := Option.isSome_iff_exists.mp hk
  have hset : setItem es k fv = .ok (es ++ [(k, coerceV fv)]) := by
    rw [setItem_good es k fv (goodKey_of_hash hk) hfv, coerceV_of_hash hk,
      dictSet_absent (coerceV fv) habs]
  have hfind : lookupEntry k (es ++ [(k, coerceV fv)]) = some (coerceV fv) := by
    rw [lookupEntry_append, habs]
    simp [lookupEntry]
  refine ⟨?_, ?_, by simp⟩
  · simp only [getItem, hn, habs, hset, hfind]
  · simp only [getItem, hn, hfind]

/-- Witness for C4 at the spec's own test: `HDict(factory=lambda: 0)` and a
missing key `"missing"` — the lookup returns 0, stores it, and a second
lookup returns it without invoking the factory again. -/
theorem getItem_factory_witness :
    getItem ⟨[], some (.vint 0)⟩ (.vstr "missing") =
      (.ok (.vint 0), ⟨[(.vstr "missing", .vint 0)], some (.vint 0)⟩, 1) ∧
    getItem ⟨[(.vstr "missing", .vint 0)], some (.vint 0)⟩ (.vstr "missing") =
      (.ok (.vint 0), ⟨[(.vstr "missing", .vint 0)], some (.vint 0)⟩, 0) := by
  have h := getItem_factory [] (.vstr "missing") (.vint 0)
    (by decide) (by decide) (by decide)
  have hc : coerceV (.vint 0) = .vint 0 := by simp [coerceV]
  rw [hc] at h
  exact ⟨h.1, h.2.1⟩

/-- Claim C5: for a hashable key, `__getitem__` raises `KeyError` exactly when
the key is absent and no (callable) factory is configured; when it raises
`KeyError` the instance is unchanged and the factory was not invoked; and
when the key is present its value is returned with no state change and no
factory invocation. -/
theorem getItem_keyerror_iff (d : HDictS) (k : PyVal)
    (hk : (pyHash k).isSome = true) :
    ((getItem d k).1 = .error (.keyError k) ↔
      lookupEntry k d.entries = none ∧ d.factory = none) ∧
    ((getItem d k).1 = .error (.keyError k) →
      (getItem d k).2.1 = d ∧ (getItem d k).2.2 = 0) ∧
    (∀ v, lookupEntry k d.entries = some v → getItem d k = (.ok v, d, 0)) := by
  obtain ⟨n, hn⟩ := Option.isSome_iff_exists.mp hk
  cases hl : lookupEntry k d.entries with
  | some v =>
    refine ⟨by simp [getItem, hn, hl], by simp [getItem, hn, hl], ?_⟩
    intro w hw
    simp only [Option.some.injEq] at hw
    simp [getItem, hn, hl, hw]
  | none =>
    cases hf : d.factory with
    | none =>
      refine ⟨by simp [getItem, hn, hl, hf], by simp [getItem, hn, hl, hf], ?_⟩
      intro w hw
      simp at hw
    | some fv =>
      cases hs : setItem d.entries k fv with
      | ok es2 =>
        obtain ⟨w, rfl⟩ := setItem_ok_shape hk hs
        have hfind : lookupEntry k (dictSet k w d.entries) = some w :=
          lookupEntry_dictSet_self k w d.entries
        refine ⟨by simp [getItem, hn, hl, hf, hs, hfind], ?_, ?_⟩
        · simp [getItem, hn, hl, hf, hs, hfind]
        · intro w2 hw2
          simp at hw2
      | error e =>
        have he : (∃ s, e = .valueError s) ∨ (∃ s, e = .typeError s) :=
          setItem_err hs
        have hne : Except.error (ε := PyErr) (α := PyVal) e ≠
            .error (.keyError k) := by
          rcases he with ⟨s, rfl⟩ | ⟨s, rfl⟩ <;> simp
        refine ⟨by simp [getItem, hn, hl, hf, hs, hne], ?_, ?_⟩
        · simp [getItem, hn, hl, hf, hs, hne]
        · intro w2 hw2
          simp at hw2

/-- Witness for C5 at concrete inputs: looking `"a"` up in an empty map with
no factory raises `KeyError`. -/
theorem getItem_keyerror_iff_witness :
    (getItem ⟨[], none⟩ (.vstr "a")).1 = .error (.keyError (.vstr "a")) :=
  ((getItem_keyerror_iff ⟨[], none⟩ (.vstr "a") (by decide)).1).mpr ⟨rfl, rfl⟩

/-- Counterexample to claim C6 as stated: key `[]` (unhashable, not a
mapping) with value `{}` (a mapping) — per the claim the key-specific
`ValueError` should fire, but because the value-coercion branch was taken,
the `elif not isinstance(key, Hashable)` check is skipped and the call
instead fails with the `TypeError` that `dict.__setitem__` raises when
hashing the list key. -/
theorem setItem_key_message_cex :
    setItem [] (.vlist []) (.vdict []) = .error (.typeError "unhashable type") ∧
    PyErr.typeError "unhashable type" ≠ .valueError keyNotHashableMessage := by
  constructor
  · simp [setItem, setItemVal, insertAll, store, pyHash]
  · simp

/-- Claim C6 (amended): when the key is unhashable and not a mapping and the
value is *hashable* (hashable mappings included), `__setitem__` fails with the
key-specific `ValueError` and performs no mutation (the error is returned
before the store is reached).  When the value is instead an unhashable
mapping, the value-coercion branch skips the key check and the call fails
with a `TypeError` from the underlying store (see the counterexample). -/
theorem setItem_key_message (es : Entries) (k v : PyVal)
    (hk1 : isHashable k = false) (hk2 : isMapping k = false)
    (hv : isHashable v = true) :
    setItem es k v = .error (.valueError keyNotHashableMessage) := by
  cases k with
  | vlist xs =>
    cases v with
    | vdict ves => simp [isHashable] at hv
    | vlist ys => simp [isHashable] at hv
    | vint a => simp [setItem, setItemVal, isHashable]
    | vstr a => simp [setItem, setItemVal, isHashable]
    | vbool a => simp [setItem, setItemVal, isHashable]
    | vnone => simp [setItem, setItemVal, isHashable]
    | vtuple ys => simp [setItem, setItemVal, isHashable]
    | vhdict hes hf => simp [setItem, setItemVal, isHashable]
  | vdict kes => simp [isMapping] at hk2
  | vhdict hes hf => simp [isMapping] at hk2
  | vint a => simp [isHashable] at hk1
  | vstr a => simp [isHashable] at hk1
  | vbool a => simp [isHashable] at hk1
  | vnone => simp [isHashable] at hk1
  | vtuple xs => simp [isHashable] at hk1

/-- Witness for the amended C6: inserting value `5` under the list key `[]`
raises the key-specific `ValueError`. -/
theorem setItem_key_message_witness :
    setItem [] (.vlist []) (.vint 5) =
      .error (.valueError keyNotHashableMessage) :=
  setItem_key_message [] (.vlist []) (.vint 5) rfl rfl rfl

/-- Claim C7: any positional-argument shape other than the pair-sequence
form, the flat even-length form, the single-mapping form, or zero arguments
makes construction fail with the argument-shape `ValueError`; the error is
raised during dispatch, before any insertion, so no partially built instance
is returned (the constructor returns only the error). -/
theorem hdictInit_bad_shape (args : List PyVal) (values : PyVal)
    (factory : Option PyVal) (kwargs : Entries)
    (h1 : parametersAreKeyValuePairs args = false)
    (h2 : parametersIsKeyValueList args = false)
    (h3 : ∀ m, args = [m] → isMapping m = false)
    (h4 : args ≠ []) :
    hdictInit args values factory kwargs =
      .error (.valueError oddArgumentsMessage) := by
  have h5 : (args.length == 1 && isMapping (args.headD .vnone)) = false := by
    cases args with
    | nil => exact absurd rfl h4
    | cons a rest =>
      cases rest with
      | nil => simp [h3 a rfl]
      | cons b rest2 => simp
  have h6 : args.isEmpty = false := by
    cases args with
    | nil => exact absurd rfl h4
    | cons a rest => simp
  simp only [hdictInit, dispatchArgs, h1, h2, h5, h6, Bool.false_eq_true,
    if_false]

/-- Witness for C7 at the spec's own example: `HDict("a", 1, "b")` — an odd
flat argument count — fails with the argument-shape error. -/
theorem hdictInit_bad_shape_witness :
    hdictInit [.vstr "a", .vint 1, .vstr "b"] .vnone none [] =
      .error (.valueError oddArgumentsMessage) :=
  hdictInit_bad_shape _ _ _ _ (by decide) (by decide)
    (fun m hm => by simp at hm) (by simp)

/-- Claim C10: every positional argument that is a length-2 sequence of two
type-hashable elements — a two-character string included — makes
`_parameters_are_key_value_pairs` dispatch to the pair form, and concretely
`HDict("ab", "cd")` produces the entries `"a" → "b"` and `"c" → "d"`, not a
single entry `"ab" → "cd"`. -/
theorem pairForm_dispatch (args : List PyVal)
    (h1 : args ≠ [])
    (h2 : ∀ a ∈ args, isSequence a = true ∧ seqLen a = 2 ∧
      isHashable (seqNth a 0) = true ∧ isHashable (seqNth a 1) = true) :
    parametersAreKeyValuePairs args = true ∧
    hdictInit [.vstr "ab", .vstr "cd"] .vnone none [] =
      .ok ⟨[(.vstr "a", .vstr "b"), (.vstr "c", .vstr "d")], none⟩ := by
  constructor
  · rw [parametersAreKeyValuePairs]
    simp only [Bool.and_eq_true, List.all_eq_true]
    refine ⟨by simpa using h1, ?_⟩
    intro a ha
    obtain ⟨s1, s2, s3, s4⟩ := h2 a ha
    simp [s1, s2, s3, s4]
  · have hd : dispatchArgs [.vstr "ab", .vstr "cd"] [] =
        .ok [(.vstr "a", .vstr "b"), (.vstr "c", .vstr "d")] := by decide
    simp only [hdictInit, hd]
    simp [insertAll, setItem, setItemVal, store, pyHash, dictSet, isHashable,
      isMapping]

/-- Witness for C10: instantiated at the two-character-string arguments
themselves. -/
theorem pairForm_dispatch_witness :
    parametersAreKeyValuePairs [.vstr "ab", .vstr "cd"] = true ∧
    hdictInit [.vstr "ab", .vstr "cd"] .vnone none [] =
      .ok ⟨[(.vstr "a", .vstr "b"), (.vstr "c", .vstr "d")], none⟩ :=
  pairForm_dispatch [.vstr "ab", .vstr "cd"] (by simp) (by decide)

/-- Counterexample to claim C3 as stated: `HDict([("a",1),("b",2)])` — a
*single* positional argument holding the pair list — does not produce the
entries `"a" → 1, "b" → 2`.  The outer list is itself a length-2 sequence of
two hashable tuples, so `_parameters_are_key_value_pairs` accepts it as the
pair form and `for key, value in args` unpacks the outer list into the single
entry `("a", 1) → ("b", 2)`. -/
theorem construction_forms_cex :
    hdictInit [.vlist [.vtuple [.vstr "a", .vint 1],
        .vtuple [.vstr "b", .vint 2]]] .vnone none [] =
      .ok ⟨[(.vtuple [.vstr "a", .vint 1], .vtuple [.vstr "b", .vint 2])],
        none⟩ ∧
    [(PyVal.vtuple [PyVal.vstr "a", PyVal.vint 1],
        PyVal.vtuple [PyVal.vstr "b", PyVal.vint 2])] ≠
      [(PyVal.vstr "a", PyVal.vint 1), (PyVal.vstr "b", PyVal.vint 2)] := by
  constructor
  · have hd : dispatchArgs [.vlist [.vtuple [.vstr "a", .vint 1],
        .vtuple [.vstr "b", .vint 2]]] [] =
        .ok [(.vtuple [.vstr "a", .vint 1], .vtuple [.vstr "b", .vint 2])] :=
      by decide
    simp only [hdictInit, hd]
    simp [insertAll, setItem, setItemVal, store, pyHash, pyHashList,
      listCombO, strHash, dictSet, isMapping, isHashable]
  · decide

/-- Claim C3 (amended): the pair form with each pair as its *own* positional
argument — `HDict(("a",1),("b",2))` — the flat form `HDict("a",1,"b",2)`, and
the mapping form `HDict({"a":1,"b":2})` all produce the same map (same
entries, same order, no factory); the bracketed single-list call of the
original claim instead produces the single entry `("a",1) → ("b",2)` (see the
counterexample). -/
theorem construction_forms_agree :
    hdictInit [.vtuple [.vstr "a", .vint 1], .vtuple [.vstr "b", .vint 2]]
        .vnone none [] =
      .ok ⟨[(.vstr "a", .vint 1), (.vstr "b", .vint 2)], none⟩ ∧
    hdictInit [.vstr "a", .vint 1, .vstr "b", .vint 2] .vnone none [] =
      .ok ⟨[(.vstr "a", .vint 1), (.vstr "b", .vint 2)], none⟩ ∧
    hdictInit [.vdict [(.vstr "a", .vint 1), (.vstr "b", .vint 2)]]
        .vnone none [] =
      .ok ⟨[(.vstr "a", .vint 1), (.vstr "b", .vint 2)], none⟩ := by
  refine ⟨?_, ?_, ?_⟩
  · have hd : dispatchArgs [.vtuple [.vstr "a", .vint 1],
        .vtuple [.vstr "b", .vint 2]] [] =
        .ok [(.vstr "a", .vint 1), (.vstr "b", .vint 2)] := by decide
    simp only [hdictInit, hd]
    simp [insertAll, setItem, setItemVal, store, pyHash, strHash, dictSet,
      isMapping, isHashable]
  · have hd : dispatchArgs [.vstr "a", .vint 1, .vstr "b", .vint 2] [] =
        .ok [(.vstr "a", .vint 1), (.vstr "b", .vint 2)] := by decide
    simp only [hdictInit, hd]
    simp [insertAll, setItem, setItemVal, store, pyHash, strHash, dictSet,
      isMapping, isHashable]
  · have hd : dispatchArgs [.vdict [(.vstr "a", .vint 1),
        (.vstr "b", .vint 2)]] [] =
        .ok [(.vstr "a", .vint 1), (.vstr "b", .vint 2)] := by decide
    simp only [hdictInit, hd]
    simp [insertAll, setItem, setItemVal, store, pyHash, strHash, dictSet,
      isMapping, isHashable]

theorem lookupEntry_coerceEntries (k : PyVal) :
    ∀ (src acc : Entries), goodEntries src = true →
      lookupEntry k (coerceEntries acc src) =
        match lookupEntry k src with
        | some v => some (coerceV v)
        | none => lookupEntry k acc := by
  intro src
  induction src with
  | nil =>
    intro acc _
    simp [coerceEntries, lookupEntry]
  | cons q rest ih =>
    obtain ⟨k1, v1⟩ := q
    intro acc hg
    rw [goodEntries_cons] at hg
    obtain ⟨hk1, hdist, hv1, hrest⟩ := hg
    rw [coerceEntries, coerceV_of_hash hk1, ih _ hrest]
    cases hr : lookupEntry k rest with
    | some v =>
      have hne : k1 ≠ k := by
        intro he
        subst he
        rw [Option.isNone_iff_eq_none] at hdist
        rw [hdist] at hr
        cases hr
      simp [lookupEntry, hne, hr]
    | none =>
      by_cases he : k1 = k
      · subst he
        simp [lookupEntry, hr, lookupEntry_dictSet_self]
      · simp [lookupEntry, he, hr, lookupEntry_dictSet_other _ _ he]

/-- Claim C8: constructing with keyword entries `kw` and a `values` mapping
inserts the `values` entries after all keyword-derived entries, so for any
key the final stored value is the (coerced) `values` value when the key
occurs there — last write wins — and the (coerced) keyword value otherwise;
every stored value went through the coercing `__setitem__` (`coerceV`,
e.g. a plain-dict value is stored as a nested `HDict`), never a raw bypass. -/
theorem hdictInit_values_last (kw ves : Entries) (fac : Option PyVal)
    (hkw : goodEntries kw = true) (hves : goodEntries ves = true) :
    ∃ d, hdictInit [] (.vdict ves) fac kw = .ok d ∧ d.factory = fac ∧
      ∀ k, lookupEntry k d.entries =
        match lookupEntry k ves with
        | some v => some (coerceV v)
        | none => (lookupEntry k kw).map coerceV := by
  have hd : dispatchArgs [] kw = .ok kw := by
    simp [dispatchArgs, parametersAreKeyValuePairs, parametersIsKeyValueList]
  refine ⟨⟨coerceEntries (coerceEntries [] kw) ves, fac⟩, ?_, rfl, ?_⟩
  · simp only [hdictInit, hd, insertAll_good kw [] hkw, isMapping,
      entriesOfMapping, insertAll_good ves (coerceEntries [] kw) hves,
      if_true]
  · intro k
    rw [lookupEntry_coerceEntries k ves _ hves]
    cases hv : lookupEntry k ves with
    | some v => rfl
    | none =>
      rw [lookupEntry_coerceEntries k kw _ hkw]
      cases hw : lookupEntry k kw with
      | some v => rfl
      | none => simp [lookupEntry]

/-- Witness for C8: keyword entry `a=1` overwritten by `values={"a": 2}`. -/
theorem hdictInit_values_last_witness :
    ∃ d, hdictInit [] (.vdict [(.vstr "a", .vint 2)]) none
        [(.vstr "a", .vint 1)] = .ok d ∧
      lookupEntry (.vstr "a") d.entries = some (.vint 2) := by
  obtain ⟨d, h1, _, h3⟩ := hdictInit_values_last [(.vstr "a", .vint 1)]
    [(.vstr "a", .vint 2)] none (by decide) (by decide)
  refine ⟨d, h1, ?_⟩
  have h4 := h3 (.vstr "a")
  simpa [lookupEntry, coerceV] using h4

/-- Counterexample to claim C9 as stated: the map `{"values": 1}` contains
only a JSON-representable scalar value under a string key, yet
`fromJsonText(toJsonText(m))` is the empty map, not `m`: `loads` re-enters
the constructor as `cls(**{"values": 1})`, so the top-level key "values" is
captured by the constructor's `values` parameter (and, not being a mapping,
is silently dropped) instead of becoming an entry.  Similarly, the map
`{"self": 1}` does not round-trip at all: `cls(**{"self": 1})` collides with
the bound `self` parameter and raises a `TypeError` (got multiple values for
argument self). -/
theorem json_roundtrip_cex :
    hdictToJson ⟨[(.vstr "values", .vint 1)], none⟩ =
      some (.jobj [("values", .jnum 1)]) ∧
    hdictLoads (.jobj [("values", .jnum 1)]) = .ok ⟨[], none⟩ ∧
    pyEquivEntries [(PyVal.vstr "values", PyVal.vint 1)] [] = false ∧
    hdictToJson ⟨[(.vstr "self", .vint 1)], none⟩ =
      some (.jobj [("self", .jnum 1)]) ∧
    hdictLoads (.jobj [("self", .jnum 1)]) =
      .error (.typeError "got multiple values for argument self") := by
  refine ⟨rfl, ?_, rfl, rfl, ?_⟩
  · have hd : dispatchArgs [] [] = .ok [] := by decide
    simp [hdictLoads, findField, jsonToPyFields, List.filter, hdictInit, hd,
      insertAll, isMapping, jsonToPy]
  · simp [hdictLoads]

theorem jsonToPyFields_eq (flds : List (String × Json)) :
    jsonToPyFields flds =
      flds.map (fun q => (PyVal.vstr q.1, jsonToPy q.2)) := by
  induction flds with
  | nil => rfl
  | cons q rest ih =>
    obtain ⟨s, j⟩ := q
    simp [jsonToPyFields, ih]

theorem findField_eq_none {s : String} {flds : List (String × Json)}
    (h : ∀ q ∈ flds, q.1 ≠ s) : findField s flds = none := by
  induction flds with
  | nil => rfl
  | cons q rest ih =>
    obtain ⟨t, j⟩ := q
    rw [findField, if_neg (h (t, j) (by simp)), ih]
    intro q hq
    exact h q (by simp [hq])

mutual

theorem roundTripVal : (v : PyVal) → roundOK v = true →
    ∃ jv, pyToJson v = some jv ∧ goodVal (jsonToPy jv) = true ∧
      pyEquiv v (coerceV (jsonToPy jv)) = true
  | .vint i => fun _ => by
    refine ⟨.jnum i, rfl, rfl, ?_⟩
    simp only [jsonToPy, coerceV]
    exact pyEquiv_refl _
  | .vstr s => fun _ => by
    refine ⟨.jstr s, rfl, rfl, ?_⟩
    simp only [jsonToPy, coerceV]
    exact pyEquiv_refl _
  | .vbool b => fun _ => by
    refine ⟨.jbool b, rfl, rfl, ?_⟩
    simp only [jsonToPy, coerceV]
    exact pyEquiv_refl _
  | .vnone => fun _ => by
    refine ⟨.jnull, rfl, rfl, ?_⟩
    simp only [jsonToPy, coerceV]
    exact pyEquiv_refl _
  | .vlist xs => fun h => absurd h (by simp [roundOK])
  | .vtuple xs => fun h => absurd h (by simp [roundOK])
  | .vdict es => fun h => absurd h (by simp [roundOK])
  | .vhdict es f => fun h => by
    have hes : roundEntriesOK es = true := by simpa [roundOK] using h
    obtain ⟨flds, ha, hb, hc, hd⟩ := roundTripEntries es hes
    refine ⟨.jobj flds, ?_, ?_, ?_⟩
    · simp [pyToJson, ha]
    · simpa [jsonToPy, goodVal] using hc
    · have e2 : coerceV (.vdict (jsonToPyFields flds)) =
          .vhdict (coerceEntries [] (jsonToPyFields flds)) none := by
        simp [coerceV]
      have e3 := coerceEntries_append (jsonToPyFields flds) [] hc
        (by simp [lookupEntry])
      simp only [List.nil_append] at e3
      show pyEquiv (PyVal.vhdict es f)
        (coerceV (PyVal.vdict (jsonToPyFields flds))) = true
      rw [e2, e3]
      exact hd
termination_by v => sizeOf v
decreasing_by all_goals simp_wf <;> simp_arith

theorem roundTripEntries : (es : Entries) → roundEntriesOK es = true →
    ∃ flds, pyToJsonFields es = some flds ∧
      flds.map (fun q => PyVal.vstr q.1) = es.map Prod.fst ∧
      goodEntries (jsonToPyFields flds) = true ∧
      pyEquivEntries es
        ((jsonToPyFields flds).map (fun p => (p.1, coerceV p.2))) = true
  | [] => fun _ => ⟨[], rfl, rfl, rfl, rfl⟩
  | (k, v) :: rest => fun h => by
    have h' : isVstr k = true ∧ (lookupEntry k rest).isNone = true ∧
        roundOK v = true ∧ roundEntriesOK rest = true := by
      simpa [roundEntriesOK, Bool.and_eq_true, and_assoc] using h
    obtain ⟨hks, hdist, hv, hrest⟩ := h'
    obtain ⟨s, rfl⟩ : ∃ s, k = .vstr s := by
      cases k <;> simp_all [isVstr]
    obtain ⟨jv, hja, hjb, hjc⟩ := roundTripVal v hv
    obtain ⟨rflds, ha, hb, hc, hd⟩ := roundTripEntries rest hrest
    refine ⟨(s, jv) :: rflds, ?_, ?_, ?_, ?_⟩
    · simp [pyToJsonFields, jsonKeyStr, hja, ha]
    · simp [hb]
    · rw [jsonToPyFields]
      rw [goodEntries_cons]
      refine ⟨rfl, ?_, hjb, hc⟩
      rw [Option.isNone_iff_eq_none, lookupEntry_eq_none]
      intro p hp
      have hp1 : p.1 ∈ (jsonToPyFields rflds).map Prod.fst :=
        List.mem_map_of_mem Prod.fst hp
      rw [jsonToPyFields_eq, List.map_map] at hp1
      have hp2 : p.1 ∈ rflds.map (fun q => PyVal.vstr q.1) := by
        simpa [Function.comp] using hp1
      rw [hb] at hp2
      rw [List.mem_map] at hp2
      obtain ⟨q, hq, hq2⟩ := hp2
      rw [← hq2]
      exact lookupEntry_eq_none.mp
        (by simpa using hdist) q hq
    · rw [jsonToPyFields]
      simp only [List.map, pyEquivEntries, Bool.and_eq_true]
      exact ⟨⟨pyEquiv_refl _, hjc⟩, hd⟩
termination_by es => sizeOf es
decreasing_by all_goals simp_wf <;> simp_arith

end

/-- Claim C9 (amended): `fromJsonText(toJsonText(m))` equals `m` (Python
`==`: same entries, pointwise, factories ignored) for every map whose values
are JSON-representable scalars or nested stored hashable maps with string
keys — *provided no top-level key is the string "self", "values" or
"factory"*.  A top-level "self" key collides with the bound first parameter
of `__init__` when `loads` re-enters the constructor as `cls(**loaded)` and
raises a `TypeError`; top-level "values" and "factory" keys are captured by
the constructor's named parameters and do not survive the round trip (see the
counterexample).  Nested occurrences of these key names are unaffected.  The
reconstructed map always has factory `None`. -/
theorem json_roundtrip (es : Entries) (fac : Option PyVal)
    (h1 : roundEntriesOK es = true)
    (h2 : ∀ p ∈ es, p.1 ≠ .vstr "self" ∧ p.1 ≠ .vstr "values" ∧
      p.1 ≠ .vstr "factory") :
    ∃ j d2, hdictToJson ⟨es, fac⟩ = some j ∧ hdictLoads j = .ok d2 ∧
      pyEquivEntries es d2.entries = true ∧ d2.factory = none := by
  obtain ⟨flds, ha, hb, hc, hd⟩ := roundTripEntries es h1
  have hkeys : ∀ q ∈ flds, q.1 ≠ "self" ∧ q.1 ≠ "values" ∧
      q.1 ≠ "factory" := by
    intro q hq
    have hmem : PyVal.vstr q.1 ∈ es.map Prod.fst := by
      rw [← hb]
      exact List.mem_map_of_mem _ hq
    rw [List.mem_map] at hmem
    obtain ⟨p, hp, hp2⟩ := hmem
    have h3 := h2 p hp
    refine ⟨?_, ?_, ?_⟩
    · intro he
      exact h3.1 (by rw [hp2, he])
    · intro he
      exact h3.2.1 (by rw [hp2, he])
    · intro he
      exact h3.2.2 (by rw [hp2, he])
  have hself : (flds.any (fun p => p.1 == "self")) = false := by
    rw [List.any_eq_false]
    intro q hq
    simp [(hkeys q hq).1]
  have hfv : findField "values" flds = none :=
    findField_eq_none (fun q hq => (hkeys q hq).2.1)
  have hfilter : flds.filter
      (fun p => !(p.1 == "values") && !(p.1 == "factory")) = flds := by
    rw [List.filter_eq_self]
    intro q hq
    simp [(hkeys q hq).2.1, (hkeys q hq).2.2]
  have hdisp : dispatchArgs [] (jsonToPyFields flds) =
      .ok (jsonToPyFields flds) := by
    simp [dispatchArgs, parametersAreKeyValuePairs, parametersIsKeyValueList]
  refine ⟨.jobj flds, ⟨coerceEntries [] (jsonToPyFields flds), none⟩,
    ?_, ?_, ?_, rfl⟩
  · simp [hdictToJson, pyToJson, ha]
  · simp only [hdictLoads, hself, hfv, hfilter, hdictInit, hdisp,
      insertAll_good _ [] hc, isMapping, Bool.false_eq_true, if_false]
  · rw [coerceEntries_append (jsonToPyFields flds) [] hc
      (by simp [lookupEntry]), List.nil_append]
    exact hd

/-- Witness for the amended C9 at a concrete map `{"a": 1}`. -/
theorem json_roundtrip_witness :
    ∃ j d2, hdictToJson ⟨[(.vstr "a", .vint 1)], none⟩ = some j ∧
      hdictLoads j = .ok d2 ∧
      pyEquivEntries [(PyVal.vstr "a", PyVal.vint 1)] d2.entries = true := by
  obtain ⟨j, d2, ha, hb, hc, _⟩ := json_roundtrip [(.vstr "a", .vint 1)] none
    (by decide) (by decide)
  exact ⟨j, d2, ha, hb, hc⟩
